import Mathlib

/-!
Verification of the ROYAL_Stats core engines against their specification.

This file shallowly embeds the two engines covered by the spec:

* the hand-ledger reconstructor of `src/parsers/hand_history.py`
  (action accumulation, pot building, winner assignment, elimination
  detection and knockout attribution), and
* the bounty-decomposition engine of `src/parsers/tournament_summary.py`
  (base payout, bounty isolation, greedy bucket extraction, and the
  player-count validation logic of `parse_file`).

Modelling conventions:

* Python `dict`s (seats, contributions, collections) are modelled as
  key-unique association lists `List (String × Int)` preserving insertion
  order, with `lgetD`/`lset` mirroring `d.get(k, 0)` and `d[k] = v`.
* Python `set`s of player names are modelled as duplicate-free
  `List String` values carrying an (arbitrary but fixed) iteration order;
  `set.add` becomes `winsert`.
* Currency amounts (`float` in the source) are modelled as exact
  rationals `ℚ`; all amounts appearing in the claims are integral and
  small, so no float rounding is abstracted away.  Chip counts are `Int`
  exactly as in the source.
* Regular-expression matching (the Lexical Line Classifier) is
  abstracted: a matched action line is represented by its captured
  groups (`ActLine`), and a tournament-summary document by the results
  of the field searches that `parse_file` performs on it.
* `sorted(...)` (a stable sort in Python) is modelled by
  `List.insertionSort`, which is stable and structurally recursive.
-/

/-! ## Bounty decomposer (`src/parsers/tournament_summary.py`) -/

/-- Result record mirroring the `TournamentSummary` dataclass.  The
`hero_name` and `start_time` fields play no role in any claim and are
omitted. -/
structure TournamentSummary where
  tournament_id : Int
  buy_in : ℚ
  players : ℕ
  finish_place : ℕ
  prize_total : ℚ
  bounty_total : ℚ
  knockouts_x2 : Int
  knockouts_x10 : Int
  knockouts_x100 : Int
  knockouts_x1000 : Int
  knockouts_x10000 : Int
deriving DecidableEq, Repr

/-- Embeds `TournamentSummaryParser._compute_base_payout`: fixed payout of
4, 3, 2 buy-ins for places 1, 2, 3 and zero otherwise. -/
def compute_base_payout (place : ℕ) (buy_in : ℚ) : ℚ :=
  if place = 1 then 4 * buy_in
  else if place = 2 then 3 * buy_in
  else if place = 3 then 2 * buy_in
  else 0

/-- Embeds the inner `_extract` closure of
`TournamentSummaryParser._calculate_large_knockouts`: one greedy step at
one multiplier tier.  Python's `int(cnt_bounty // one_price)` is floor
division followed by truncation of an already-integral float, i.e. the
mathematical floor. -/
def extractKO (buy_in : ℚ) (max_possible_kos : Int) (cnt_bounty : ℚ)
    (multiplier : ℕ) : Int × ℚ :=
  if buy_in ≤ 0 then (0, cnt_bounty)
  else
    let one_price : ℚ := buy_in * (multiplier : ℚ)
    if one_price = 0 then (0, cnt_bounty)
    else
      let qty : Int := min ⌊cnt_bounty / one_price⌋ max_possible_kos
      (qty, cnt_bounty - (qty : ℚ) * one_price)

/-- Embeds `TournamentSummaryParser._calculate_large_knockouts`: greedy
extraction over the tiers 10000, 1000, 100, 10, 2 (largest first), each
capped by `max(0, players - 1)`.  Returns `(x2, x10, x100, x1000, x10000)`
in the source's order. -/
def calculate_large_knockouts (bounty buy_in : ℚ) (players : Int) :
    Int × Int × Int × Int × Int :=
  let max_possible_kos : Int := max 0 (players - 1)
  let r0 := extractKO buy_in max_possible_kos bounty 10000
  let r1 := extractKO buy_in max_possible_kos r0.2 1000
  let r2 := extractKO buy_in max_possible_kos r1.2 100
  let r3 := extractKO buy_in max_possible_kos r2.2 10
  let r4 := extractKO buy_in max_possible_kos r3.2 2
  (r4.1, r3.1, r2.1, r1.1, r0.1)

/-- Embeds the `__post_init__` validation of the `TournamentSummary`
dataclass: `finish_place ≥ 1` and `players ≥ 1`, raising `ValueError`
(modelled as `Except.error`) otherwise. -/
def mkTournamentSummary (tid : Int) (buy_in : ℚ) (players finish_place : ℕ)
    (prize_total bounty_total : ℚ) (ko : Int × Int × Int × Int × Int) :
    Except String TournamentSummary :=
  if finish_place < 1 then Except.error "finish_place must be 1 or more"
  else if players < 1 then Except.error "players must be 1 or more"
  else Except.ok
    ⟨tid, buy_in, players, finish_place, prize_total, bounty_total,
      ko.1, ko.2.1, ko.2.2.1, ko.2.2.2.1, ko.2.2.2.2⟩

/-- Embeds `TournamentSummaryParser.parse_file` from the point where the
regex field searches have produced their results.  `hero_block` is the
last match of the hero place/prize pattern (place and prize captures),
`generic_block` the first match of the generic finish-place pattern used
as a fallback, and `players_parsed` the parsed player count (0 when the
`Players:` field was absent, matching the source's default).  Returns
either the summary together with the list of warning/error messages the
source would log, or the document-level error the source would raise. -/
def ts_parse_file (tid : Int) (buy_in : ℚ) (players_parsed : ℕ)
    (hero_block generic_block : Option (ℕ × ℚ)) :
    Except String (TournamentSummary × List String) :=
  let w0 : List String :=
    if hero_block.isSome then [] else ["hero block not found, trying generic place block"]
  match hero_block.orElse (fun _ => generic_block) with
  | none => Except.error "could not determine place and prize for hero"
  | some pb =>
    let finish_place : ℕ := pb.1
    let prize_total : ℚ := pb.2
    let pw : ℕ × List String :=
      if players_parsed = 0 then
        (finish_place, ["player count not found, set to finish_place"])
      else if players_parsed < finish_place then
        (finish_place, ["player count smaller than finish place, corrected"])
      else (players_parsed, [])
    let pw2 : ℕ × List String :=
      if ¬ (1 ≤ finish_place ∧ finish_place ≤ pw.1) then
        (finish_place, ["critical validation failure, players set to finish_place"])
      else (pw.1, [])
    let players := pw2.1
    let base_payout := compute_base_payout finish_place buy_in
    let bounty_total := max (prize_total - base_payout) 0
    let ko := calculate_large_knockouts bounty_total buy_in (players : Int)
    (mkTournamentSummary tid buy_in players finish_place prize_total
        bounty_total ko).map
      (fun s => (s, w0 ++ pw.2 ++ pw2.2))

/-! ## Hand history reconstructor (`src/parsers/hand_history.py`) -/

/-- Association-list model of a Python `dict` from player name to chips,
preserving insertion order and key uniqueness. -/
abbrev Ledger := List (String × Int)

/-- Mirrors `d.get(p, 0)` on a `Ledger`. -/
def lgetD (l : Ledger) (p : String) : Int :=
  match l with
  | [] => 0
  | e :: rest => if e.1 = p then e.2 else lgetD rest p

/-- Mirrors `d[p] = v` on a `Ledger`: update in place when the key exists,
append otherwise (Python dicts preserve insertion order). -/
def lset (l : Ledger) (p : String) (v : Int) : Ledger :=
  match l with
  | [] => [(p, v)]
  | e :: rest => if e.1 = p then (p, v) :: rest else e :: lset rest p v

/-- Action kinds recognised by the `re_action` regular expression. -/
inductive ActKind where
  | posts | bets | calls | raises | allin | checks | folds
deriving DecidableEq, Repr

/-- The kinds that add their amount to both running totals
(`'posts', 'bets', 'calls', 'all-in'` in the source). -/
def addsAmount (k : ActKind) : Bool :=
  match k with
  | ActKind.posts | ActKind.bets | ActKind.calls | ActKind.allin => true
  | _ => false

/-- A classified action line of one hand, i.e. the capture groups that the
source's regular expressions extract from the raw text line.  `uncalled`
is a match of `re_uncalled` (amount, player); `act` is a match of
`re_action` (player, kind, amount, with the amount defaulting to 0 when
absent); for a raise, `raiseTo` carries the result of searching the line
with `re_raise_to` (`none` when no "to" amount parses); `other` is any
line matching neither expression. -/
inductive ActLine where
  | uncalled (amt : ℕ) (pl : String)
  | act (pl : String) (kind : ActKind) (amt : ℕ)
  | raiseTo (pl : String) (total : Option ℕ)
  | other
deriving DecidableEq, Repr

/-- One step of the action scan in `HandHistoryParser._parse_actions`:
the state is the pair `(contrib, committed)` of dictionaries.  An
uncalled-bet return subtracts its amount from both totals; `posts`,
`bets`, `calls` and `all-in` add their amount to both; a raise with a
parsed "to" amount adds the delta `total - committed[pl]` to the
contribution and sets the committed total to `total`; a raise whose "to"
amount did not parse, and every other line, leaves the state unchanged. -/
def actStep (st : Ledger × Ledger) (l : ActLine) : Ledger × Ledger :=
  match l with
  | ActLine.uncalled amt pl =>
      (lset st.1 pl (lgetD st.1 pl - (amt : Int)),
       lset st.2 pl (lgetD st.2 pl - (amt : Int)))
  | ActLine.act pl kind amt =>
      if addsAmount kind then
        (lset st.1 pl (lgetD st.1 pl + (amt : Int)),
         lset st.2 pl (lgetD st.2 pl + (amt : Int)))
      else st
  | ActLine.raiseTo pl total =>
      match total with
      | none => st
      | some t =>
          (lset st.1 pl (lgetD st.1 pl + ((t : Int) - lgetD st.2 pl)),
           lset st.2 pl (t : Int))
  | ActLine.other => st

/-- The full action scan of `HandHistoryParser._parse_actions` over the
classified action lines of one hand (the lines strictly before the
`*** SUMMARY ***` marker), starting from empty dictionaries. -/
def accumulate (lines : List ActLine) : Ledger × Ledger :=
  lines.foldl actStep ([], [])

/-- `HandHistoryParser._parse_actions` returns only the contribution
dictionary; the committed dictionary is local. -/
def parse_actions (lines : List ActLine) : Ledger :=
  (accumulate lines).1

/-- A pot, as in the `Pot` class: its size, the players eligible for it
(a Python set, modelled as a duplicate-free list in iteration order) and
the winners assigned to it (also a set). -/
structure Pot where
  size : Int
  eligible : List String
  winners : List String
deriving DecidableEq, Repr

/-- Python `set.add`: insert the element when it is not already present. -/
def winsert (p : String) (ws : List String) : List String :=
  if p ∈ ws then ws else p :: ws

/-- The ascending list of distinct positive contribution values, i.e.
`sorted({v for v in contrib.values() if v > 0})` in `_build_pots`. -/
def potLevels (contrib : Ledger) : List Int :=
  List.insertionSort (fun a b => a ≤ b)
    (((contrib.map Prod.snd).filter (fun v => 0 < v)).dedup)

/-- The tier loop of `HandHistoryParser._build_pots`: for each level `lv`
(ascending), the eligible set is the players whose contribution is at
least `lv` and the layer size is `(lv - prev) * |eligible|`. -/
def buildPotsAux (contrib : Ledger) : List Int → Int → List Pot
  | [], _ => []
  | lv :: rest, prev =>
      let elig := (contrib.filter (fun pa => lv ≤ pa.2)).map Prod.fst
      Pot.mk ((lv - prev) * (elig.length : Int)) elig [] ::
        buildPotsAux contrib rest lv

/-- Embeds `HandHistoryParser._build_pots`. -/
def build_pots (contrib : Ledger) : List Pot :=
  if contrib = [] then [] else buildPotsAux contrib (potLevels contrib) 0

/-- The inner loop of `HandHistoryParser._assign_winners` for one pot:
fold over the eligible players, letting each player with a positive
remaining collected amount take chips from the pot while it is not
exhausted.  State: `(pot_left, winners, remaining)`. -/
def takeFromPot (st : Int × List String × Ledger) (p : String) :
    Int × List String × Ledger :=
  let r := lgetD st.2.2 p
  if r ≤ 0 ∨ st.1 ≤ 0 then st
  else
    let take := min r st.1
    if 0 < take then
      (st.1 - take, winsert p st.2.1, lset st.2.2 p (r - take))
    else st

/-- Processing of a single pot in `_assign_winners`: run the eligible
players through `takeFromPot`, then, when chips remain unassigned and the
eligible set is non-empty, credit the residual to the first eligible
player (`next(iter(pot.eligible))`). -/
def assignOnePot (pot : Pot) (remaining : Ledger) : Pot × Ledger :=
  let st := pot.eligible.foldl takeFromPot (pot.size, pot.winners, remaining)
  let ws :=
    if 0 < st.1 ∧ pot.eligible ≠ [] then
      winsert (pot.eligible.headD "") st.2.1
    else st.2.1
  (Pot.mk pot.size pot.eligible ws, st.2.2)

/-- Pair every pot with its position, so that the sorted processing order
of `_assign_winners` can be mapped back onto the original list order (the
source mutates the shared `Pot` objects instead). -/
def enumPots : ℕ → List Pot → List (ℕ × Pot)
  | _, [] => []
  | i, p :: ps => (i, p) :: enumPots (i + 1) ps

/-- Process indexed pots in the given order, threading the `remaining`
dictionary through, and record each pot's assignment result under its
original index. -/
def assignSortedPots : List (ℕ × Pot) → Ledger → List (ℕ × Pot)
  | [], _ => []
  | ip :: rest, remaining =>
      let pr := assignOnePot ip.2 remaining
      (ip.1, pr.1) :: assignSortedPots rest pr.2

/-- First-match lookup of an index in an indexed pot list. -/
def plookup (i : ℕ) : List (ℕ × Pot) → Option Pot
  | [] => none
  | jp :: rest => if jp.1 = i then some jp.2 else plookup i rest

/-- Embeds `HandHistoryParser._assign_winners`: pots are processed in
ascending order of eligible-set size (Python's stable `sorted`, modelled
by the stable `insertionSort`), starting from a copy of the collects
dictionary, and the updated pots are returned in their original order. -/
def assign_winners (pots : List Pot) (collects : Ledger) : List Pot :=
  let ordered :=
    @List.insertionSort (ℕ × Pot)
      (fun a b => a.2.eligible.length ≤ b.2.eligible.length)
      (fun a b => Nat.decLe a.2.eligible.length b.2.eligible.length)
      (enumPots 0 pots)
  let processed := assignSortedPots ordered collects
  (enumPots 0 pots).map (fun ip => (plookup ip.1 processed).getD ip.2)

/-- A hand, as in the `Hand` class: starting stacks, final contributions,
collected amounts and the pot list. -/
structure Hand where
  seats : Ledger
  contrib : Ledger
  collects : Ledger
  pots : List Pot
deriving DecidableEq, Repr

/-- The tail of `HandHistoryParser._parse_hand`: given the parsed seat,
contribution and collection dictionaries of one hand, build the pots and
assign the winners. -/
def mkHand (seats contrib collects : Ledger) : Hand :=
  Hand.mk seats contrib collects (assign_winners (build_pots contrib) collects)

/-- Embeds `HandHistoryParser._eliminated`: the players seated in the
current hand and absent from the next one; no eliminations are recorded
for the final hand of a file. -/
def eliminatedIn (curr : Hand) (nxt : Option Hand) : List String :=
  match nxt with
  | none => []
  | some n =>
      (curr.seats.map Prod.fst).filter
        (fun p => ¬ p ∈ n.seats.map Prod.fst)

/-- The player→pot `setdefault` pass of `HandHistoryParser._ko_in_hand`
for one pot: each eligible player not yet in the map is bound to this
pot. -/
def potMapInsert (m : List (String × Pot)) (pot : Pot) : List (String × Pot) :=
  pot.eligible.foldl
    (fun m2 p => if p ∈ m2.map Prod.fst then m2 else m2 ++ [(p, pot)]) m

/-- First-match lookup of a player in the player→pot map. -/
def potForPlayer (p : String) : List (String × Pot) → Option Pot
  | [] => none
  | qp :: rest => if qp.1 = p then some qp.2 else potForPlayer p rest

/-- Embeds `HandHistoryParser._ko_in_hand`: scan the pots in ascending
eligible-set size, bind every player to the first (smallest) pot they are
eligible for, and count the eliminated players whose bound pot was won by
the hero. -/
def ko_in_hand (hand : Hand) (eliminated : List String) (hero : String) : ℕ :=
  if eliminated = [] then 0
  else
    let potOrder :=
      @List.insertionSort Pot
        (fun a b => a.eligible.length ≤ b.eligible.length)
        (fun a b => Nat.decLe a.eligible.length b.eligible.length)
        hand.pots
    let pmap := potOrder.foldl potMapInsert []
    (eliminated.filter (fun bust =>
      match potForPlayer bust pmap with
      | some pot => hero ∈ pot.winners
      | none => false)).length

/-- A knockout record appended to `result['knockouts']` in
`HandHistoryParser.parse_file`: the synthetic hand index, the eliminated
player, the hero's total collection in the hand (`pot_size` in the
source) and the multi-way flag. -/
structure KnockoutFact where
  hand_id : ℕ
  player : String
  amount : Int
  multi : Bool
deriving DecidableEq, Repr

/-- The knockout-emission loop of `HandHistoryParser.parse_file` for one
hand: when `_ko_in_hand` reports at least one knockout, emit, for every
eliminated player and every pot that player is eligible for whose winners
include the hero, one fact carrying the hero's total collection and that
pot's own multi-winner flag. -/
def handKnockouts (idx : ℕ) (hand : Hand) (nxt : Option Hand)
    (hero : String) : List KnockoutFact :=
  let elim := eliminatedIn hand nxt
  if 0 < ko_in_hand hand elim hero then
    elim.foldr
      (fun player acc =>
        hand.pots.foldr
          (fun pot acc2 =>
            if player ∈ pot.eligible ∧ hero ∈ pot.winners then
              KnockoutFact.mk idx player (lgetD hand.collects hero)
                  (decide (1 < pot.winners.length)) :: acc2
            else acc2)
          [] ++ acc)
      []
  else []

/-- The per-file knockout list of `HandHistoryParser.parse_file`: iterate
over the hands with their indices, pairing each with its successor. -/
def knockoutFacts (hands : List Hand) (hero : String) : List KnockoutFact :=
  ((List.range hands.length).map
      (fun idx =>
        match hands.get? idx with
        | some hand => handKnockouts idx hand (hands.get? (idx + 1)) hero
        | none => [])).flatten

/-- Decides whether, along a scan of the given lines from the given
state, every uncalled-bet-return line is covered by the named player's
committed total at that point. -/
def returnsCoveredB : Ledger × Ledger → List ActLine → Bool
  | _, [] => true
  | st, l :: ls =>
      (match l with
       | ActLine.uncalled amt pl => decide ((amt : Int) ≤ lgetD st.2 pl)
       | _ => true) && returnsCoveredB (actStep st l) ls

/-- Telescoping helper for the chip-conservation proof: the total layer
width that a contribution of `a` pays into the tiers of `L`, scanning
from previous tier `prev`. -/
def tele (a : Int) : List Int → Int → Int
  | [], _ => 0
  | lv :: rest, prev => (if lv ≤ a then lv - prev else 0) + tele a rest lv

/-- Modelled from the claim wording of C4 (not from the source): the
bucket count the claim prescribes for one tier, namely the floor of the
remaining bounty over `buy_in * multiplier`, clamped to at most
`players - 1`. -/
def claimedBucketCount (remaining buy_in : ℚ) (multiplier : ℕ)
    (players : Int) : Int :=
  min ⌊remaining / (buy_in * (multiplier : ℚ))⌋ (players - 1)

/-- Failing input for claim C1, first hand: S is all-in for 50, P and the
hero contribute 100 each, and the hero collects the whole 250. -/
def koHand1 : Hand :=
  mkHand [("S", 50), ("P", 100), ("Hero", 100)]
    [("S", 50), ("P", 100), ("Hero", 100)] [("Hero", 250)]

/-- Failing input for claim C1, successor hand: only the hero remains
seated, so S and P were eliminated in the first hand. -/
def koHand2 : Hand := mkHand [("Hero", 350)] [] []

/-- Concrete action lines for the C10 witness: two covered contributions
of 100 and an uncalled-bet return of 50 to a player with no prior
contribution, whose finalized value is therefore negative. -/
def c10Lines : List ActLine :=
  [ActLine.act "A" ActKind.posts 100, ActLine.act "B" ActKind.calls 100,
   ActLine.uncalled 50 "C"]

/-- The first pot returned for the concrete input of the C7 witness. -/
def c7WitnessPot : Pot :=
  (assign_winners (build_pots [("A", 100), ("B", 100)])
      [("A", 200)]).headD (Pot.mk 0 [] [])

/-! ## Basic ledger lemmas -/

theorem lgetD_lset_self (l : Ledger) (p : String) (v : Int) :
    lgetD (lset l p v) p = v := by
  induction l with
  | nil => simp [lset, lgetD]
  | cons e rest ih =>
      by_cases h : e.1 = p
      · simp [lset, lgetD, h]
      · simp [lset, lgetD, h, ih]

theorem lgetD_lset_ne (l : Ledger) (p q : String) (v : Int) (h : q ≠ p) :
    lgetD (lset l p v) q = lgetD l q := by
  have hpq : ¬ (p = q) := fun hh => h hh.symm
  induction l with
  | nil => simp [lset, lgetD, hpq]
  | cons e rest ih =>
      by_cases he : e.1 = p
      · have heq : ¬ (e.1 = q) := fun hh => h (hh ▸ he)
        simp [lset, lgetD, he, heq, hpq]
      · by_cases hq : e.1 = q
        · simp [lset, lgetD, he, hq, hpq, h]
        · simp [lset, lgetD, he, hq, ih]

theorem lset_mem {l : Ledger} {p : String} {v : Int} :
    ∀ e ∈ lset l p v, e.2 = v ∨ e ∈ l := by
  induction l with
  | nil => simp [lset]
  | cons f rest ih =>
      intro e he
      by_cases hf : f.1 = p
      · simp only [lset, if_pos hf, List.mem_cons] at he
        rcases he with h | h
        · exact Or.inl (by simp [h])
        · exact Or.inr (List.mem_cons_of_mem _ h)
      · simp only [lset, if_neg hf, List.mem_cons] at he
        rcases he with h | h
        · exact Or.inr (by simp [h])
        · rcases ih e h with h2 | h2
          · exact Or.inl h2
          · exact Or.inr (List.mem_cons_of_mem _ h2)

theorem lgetD_nonneg {l : Ledger} (h : ∀ e ∈ l, 0 ≤ e.2) (p : String) :
    0 ≤ lgetD l p := by
  induction l with
  | nil => simp [lgetD]
  | cons e rest ih =>
      by_cases he : e.1 = p
      · simpa [lgetD, he] using h e (List.mem_cons_self e rest)
      · exact lgetD_lt_aux he h ih
where
  lgetD_lt_aux {e : String × Int} {rest : Ledger} (he : ¬ e.1 = p)
      (h : ∀ f ∈ e :: rest, 0 ≤ f.2)
      (ih : (∀ f ∈ rest, 0 ≤ f.2) → 0 ≤ lgetD rest p) : 0 ≤ lgetD (e :: rest) p := by
    simpa [lgetD, he] using ih (fun f hf => h f (List.mem_cons_of_mem _ hf))

theorem accumulate_append (ls : List ActLine) (l : ActLine) :
    accumulate (ls ++ [l]) = actStep (accumulate ls) l := by
  simp [accumulate, List.foldl_append]

theorem actStep_fst_eq_snd (st : Ledger × Ledger) (l : ActLine)
    (h : st.1 = st.2) : (actStep st l).1 = (actStep st l).2 := by
  cases l with
  | uncalled amt pl => simp [actStep, h]
  | act pl kind amt =>
      by_cases hk : addsAmount kind = true
      · simp [actStep, hk, h]
      · simp [actStep, hk, h]
  | raiseTo pl total =>
      cases total with
      | none => simpa [actStep] using h
      | some t =>
          simp only [actStep, h]
          have : lgetD st.2 pl + ((t : Int) - lgetD st.2 pl) = (t : Int) := by ring
          rw [this]
  | other => simpa [actStep] using h

theorem foldl_actStep_fst_eq_snd (ls : List ActLine) :
    ∀ st : Ledger × Ledger, st.1 = st.2 →
      (ls.foldl actStep st).1 = (ls.foldl actStep st).2 := by
  induction ls with
  | nil => intro st h; simpa using h
  | cons l rest ih =>
      intro st h
      simpa [List.foldl_cons] using ih (actStep st l) (actStep_fst_eq_snd st l h)

theorem accumulate_fst_eq_snd (ls : List ActLine) :
    (accumulate ls).1 = (accumulate ls).2 :=
  foldl_actStep_fst_eq_snd ls ([], []) rfl

/-- Claim C5: on any prefix of action lines, a `raises X to Y` line adds
exactly `Y - committed[pl]` to the named player's contribution and sets
the committed total to `Y`, an uncalled-bet-return line subtracts its
amount from both totals of the named player, and neither line touches any
other player's totals. -/
theorem royal_C5 (ls : List ActLine) (pl q : String) (t amt : ℕ)
    (hq : q ≠ pl) :
    lgetD (accumulate (ls ++ [ActLine.raiseTo pl (some t)])).1 pl
        = lgetD (accumulate ls).1 pl
          + ((t : Int) - lgetD (accumulate ls).2 pl) ∧
    lgetD (accumulate (ls ++ [ActLine.raiseTo pl (some t)])).2 pl = (t : Int) ∧
    lgetD (accumulate (ls ++ [ActLine.raiseTo pl (some t)])).1 q
        = lgetD (accumulate ls).1 q ∧
    lgetD (accumulate (ls ++ [ActLine.raiseTo pl (some t)])).2 q
        = lgetD (accumulate ls).2 q ∧
    lgetD (accumulate (ls ++ [ActLine.uncalled amt pl])).1 pl
        = lgetD (accumulate ls).1 pl - (amt : Int) ∧
    lgetD (accumulate (ls ++ [ActLine.uncalled amt pl])).2 pl
        = lgetD (accumulate ls).2 pl - (amt : Int) ∧
    lgetD (accumulate (ls ++ [ActLine.uncalled amt pl])).1 q
        = lgetD (accumulate ls).1 q ∧
    lgetD (accumulate (ls ++ [ActLine.uncalled amt pl])).2 q
        = lgetD (accumulate ls).2 q := by
  rw [accumulate_append, accumulate_append]
  refine ⟨?_, ?_, ?_, ?_, ?_, ?_, ?_, ?_⟩ <;>
    simp [actStep, lgetD_lset_self, lgetD_lset_ne _ _ _ _ hq]

/-- Witness for C5 at a concrete input. -/
theorem royal_C5_witness :
    ("B" ≠ "A") ∧
    (lgetD (accumulate ([ActLine.act "A" ActKind.posts 100]
          ++ [ActLine.raiseTo "A" (some 250)])).1 "A"
        = lgetD (accumulate [ActLine.act "A" ActKind.posts 100]).1 "A"
          + ((250 : Int)
              - lgetD (accumulate [ActLine.act "A" ActKind.posts 100]).2 "A") ∧
      lgetD (accumulate ([ActLine.act "A" ActKind.posts 100]
          ++ [ActLine.raiseTo "A" (some 250)])).2 "A" = (250 : Int) ∧
      lgetD (accumulate ([ActLine.act "A" ActKind.posts 100]
          ++ [ActLine.raiseTo "A" (some 250)])).1 "B"
        = lgetD (accumulate [ActLine.act "A" ActKind.posts 100]).1 "B" ∧
      lgetD (accumulate ([ActLine.act "A" ActKind.posts 100]
          ++ [ActLine.raiseTo "A" (some 250)])).2 "B"
        = lgetD (accumulate [ActLine.act "A" ActKind.posts 100]).2 "B" ∧
      lgetD (accumulate ([ActLine.act "A" ActKind.posts 100]
          ++ [ActLine.uncalled 30 "A"])).1 "A"
        = lgetD (accumulate [ActLine.act "A" ActKind.posts 100]).1 "A"
          - (30 : Int) ∧
      lgetD (accumulate ([ActLine.act "A" ActKind.posts 100]
          ++ [ActLine.uncalled 30 "A"])).2 "A"
        = lgetD (accumulate [ActLine.act "A" ActKind.posts 100]).2 "A"
          - (30 : Int) ∧
      lgetD (accumulate ([ActLine.act "A" ActKind.posts 100]
          ++ [ActLine.uncalled 30 "A"])).1 "B"
        = lgetD (accumulate [ActLine.act "A" ActKind.posts 100]).1 "B" ∧
      lgetD (accumulate ([ActLine.act "A" ActKind.posts 100]
          ++ [ActLine.uncalled 30 "A"])).2 "B"
        = lgetD (accumulate [ActLine.act "A" ActKind.posts 100]).2 "B") :=
  ⟨by decide, royal_C5 [ActLine.act "A" ActKind.posts 100] "A" "B" 250 30
      (by decide)⟩

theorem foldl_actStep_nonneg (ls : List ActLine) :
    ∀ st : Ledger × Ledger, st.1 = st.2 → (∀ e ∈ st.2, 0 ≤ e.2) →
      returnsCoveredB st ls = true →
      ∀ e ∈ (ls.foldl actStep st).1, 0 ≤ e.2 := by
  induction ls with
  | nil =>
      intro st heq hnn _ e he
      exact hnn e (heq ▸ he)
  | cons l rest ih =>
      intro st heq hnn hcov
      have hcov2 : returnsCoveredB (actStep st l) rest = true := by
        simp only [returnsCoveredB, Bool.and_eq_true] at hcov
        exact hcov.2
      have hstep : ∀ e ∈ (actStep st l).2, 0 ≤ e.2 := by
        cases l with
        | uncalled amt pl =>
            have hamt : (amt : Int) ≤ lgetD st.2 pl := by
              simp only [returnsCoveredB, Bool.and_eq_true,
                decide_eq_true_eq] at hcov
              exact hcov.1
            intro e he
            simp only [actStep] at he
            rcases lset_mem e he with h | h
            · omega
            · exact hnn e h
        | act pl kind amt =>
            intro e he
            by_cases hk : addsAmount kind = true
            · simp only [actStep, hk, if_true] at he
              rcases lset_mem e he with h | h
              · have := lgetD_nonneg hnn pl
                have hamt : (0 : Int) ≤ (amt : Int) := Int.ofNat_nonneg amt
                omega
              · exact hnn e h
            · simp only [actStep, hk] at he
              simp only [Bool.false_eq_true, if_false] at he
              exact hnn e he
        | raiseTo pl total =>
            cases total with
            | none => intro e he; simp only [actStep] at he; exact hnn e he
            | some tt =>
                intro e he
                simp only [actStep] at he
                rcases lset_mem e he with h | h
                · rw [h]; exact Int.ofNat_nonneg tt
                · exact hnn e h
        | other => intro e he; simp only [actStep] at he; exact hnn e he
      exact fun e he =>
        ih (actStep st l) (actStep_fst_eq_snd st l heq) hstep hcov2 e he

/-- Amended claim C6: the finalized contributions are non-negative
provided every uncalled-bet-return line is covered by the named player's
committed total at the point where it is scanned. -/
theorem royal_C6_amended (lines : List ActLine)
    (hcov : returnsCoveredB ([], []) lines = true) :
    ∀ e ∈ parse_actions lines, 0 ≤ e.2 :=
  foldl_actStep_nonneg lines ([], []) rfl (by simp) hcov

/-- Witness for the amended C6 at a concrete input: a post of 100
followed by an uncalled-bet return of 40. -/
theorem royal_C6_witness :
    (returnsCoveredB ([], [])
        [ActLine.act "A" ActKind.posts 100, ActLine.uncalled 40 "A"] = true) ∧
    (∀ e ∈ parse_actions
        [ActLine.act "A" ActKind.posts 100, ActLine.uncalled 40 "A"],
      0 ≤ e.2) :=
  ⟨by decide, royal_C6_amended
      [ActLine.act "A" ActKind.posts 100, ActLine.uncalled 40 "A"]
      (by decide)⟩

/-- Counterexample to claim C6 as stated: an uncalled-bet return to a
player with no recorded contribution leaves that player's finalized
contribution negative. -/
theorem royal_C6_counterexample :
    ¬ (∀ e ∈ parse_actions [ActLine.uncalled 50 "C"], (0 : Int) ≤ e.2) := by
  decide

theorem sum_map_add (l : Ledger) (f g : String × Int → Int) :
    (l.map (fun x => f x + g x)).sum = (l.map f).sum + (l.map g).sum := by
  induction l with
  | nil => simp
  | cons e rest ih =>
      simp only [List.map_cons, List.sum_cons, ih]
      ring

theorem mul_filter_length (l : Ledger) (lv c : Int) :
    c * (((l.filter (fun pa => lv ≤ pa.2)).length : ℕ) : Int)
      = (l.map (fun pv => if lv ≤ pv.2 then c else 0)).sum := by
  induction l with
  | nil => simp
  | cons e rest ih =>
      by_cases h : lv ≤ e.2
      · rw [List.filter_cons_of_pos (by simpa using h), List.length_cons,
          List.map_cons, List.sum_cons, if_pos h, ← ih]
        push_cast
        ring
      · rw [List.filter_cons_of_neg (by simpa using h), List.map_cons,
          List.sum_cons, if_neg h, ← ih]
        ring

theorem tele_of_all_gt (a : Int) :
    ∀ (L : List Int) (prev : Int), (∀ x ∈ L, a < x) → tele a L prev = 0 := by
  intro L
  induction L with
  | nil => intro prev _; rfl
  | cons lv rest ih =>
      intro prev h
      have h1 : ¬ lv ≤ a := not_le.mpr (h lv (List.mem_cons_self _ _))
      simp [tele, h1, ih lv (fun x hx => h x (List.mem_cons_of_mem _ hx))]

theorem tele_mem (a : Int) :
    ∀ (L : List Int) (prev : Int), L.Pairwise (· < ·) → a ∈ L →
      tele a L prev = a - prev := by
  intro L
  induction L with
  | nil => intro prev _ h; cases h
  | cons lv rest ih =>
      intro prev hp hm
      rw [List.pairwise_cons] at hp
      rcases List.mem_cons.mp hm with h | h
      · subst h
        have h0 : tele a rest a = 0 := tele_of_all_gt a rest a hp.1
        simp [tele, h0]
      · have hlt : lv < a := hp.1 a h
        have h1 : lv ≤ a := le_of_lt hlt
        have : tele a (lv :: rest) prev
            = (if lv ≤ a then lv - prev else 0) + tele a rest lv := rfl
        rw [this, if_pos h1, ih lv hp.2 h]
        ring

theorem buildPotsAux_sum (contrib : Ledger) :
    ∀ (L : List Int) (prev : Int),
      ((buildPotsAux contrib L prev).map Pot.size).sum
        = (contrib.map (fun pv => tele pv.2 L prev)).sum := by
  intro L
  induction L with
  | nil => intro prev; simp [buildPotsAux, tele]
  | cons lv rest ih =>
      intro prev
      have hb : buildPotsAux contrib (lv :: rest) prev
          = Pot.mk ((lv - prev)
                * (((contrib.filter (fun pa => lv ≤ pa.2)).map Prod.fst).length : Int))
              ((contrib.filter (fun pa => lv ≤ pa.2)).map Prod.fst) []
            :: buildPotsAux contrib rest lv := rfl
      have ht : (fun pv : String × Int => tele pv.2 (lv :: rest) prev)
          = fun pv => (if lv ≤ pv.2 then lv - prev else 0) + tele pv.2 rest lv := rfl
      rw [hb, List.map_cons, List.sum_cons, ih lv, ht, sum_map_add]
      congr 1
      dsimp only
      rw [List.length_map, mul_filter_length]

theorem mem_potLevels {contrib : Ledger} {x : Int} :
    x ∈ potLevels contrib ↔ x ∈ contrib.map Prod.snd ∧ 0 < x := by
  simp [potLevels, List.mem_dedup, List.mem_filter]

theorem pairwise_lt_of_le_nodup :
    ∀ {L : List Int}, L.Pairwise (· ≤ ·) → L.Nodup → L.Pairwise (· < ·) := by
  intro L
  induction L with
  | nil => intro _ _; exact List.Pairwise.nil
  | cons a l ih =>
      intro hle hnd
      rw [List.pairwise_cons] at hle ⊢
      rw [List.nodup_cons] at hnd
      refine ⟨fun b hb => lt_of_le_of_ne (hle.1 b hb) ?_, ih hle.2 hnd.2⟩
      intro hab
      exact hnd.1 (by rw [hab]; exact hb)

theorem potLevels_sorted (contrib : Ledger) :
    (potLevels contrib).Pairwise (· < ·) := by
  apply pairwise_lt_of_le_nodup
  · exact List.sorted_insertionSort (fun a b => a ≤ b) _
  · exact ((List.perm_insertionSort (fun a b => a ≤ b) _).nodup_iff).mpr
      (List.nodup_dedup _)

/-- Amended claim C3 (chip conservation): the pot sizes sum to the sum of
the positive parts of the contribution values; in particular they sum to
the plain total of the ledger whenever no finalized contribution is
negative. -/
theorem royal_C3_amended (contrib : Ledger) :
    ((build_pots contrib).map Pot.size).sum
        = (contrib.map (fun pv => max pv.2 0)).sum ∧
    ((∀ e ∈ contrib, 0 ≤ e.2) →
      ((build_pots contrib).map Pot.size).sum
        = (contrib.map Prod.snd).sum) := by
  have hmain : ((build_pots contrib).map Pot.size).sum
      = (contrib.map (fun pv => max pv.2 0)).sum := by
    by_cases hc : contrib = []
    · subst hc; simp [build_pots]
    · rw [build_pots, if_neg hc, buildPotsAux_sum]
      apply congrArg List.sum
      apply List.map_congr_left
      intro pv hpv
      by_cases hpos : 0 < pv.2
      · have hmem : pv.2 ∈ potLevels contrib :=
          mem_potLevels.mpr ⟨List.mem_map_of_mem Prod.snd hpv, hpos⟩
        rw [tele_mem pv.2 (potLevels contrib) 0 (potLevels_sorted contrib) hmem,
          max_eq_left (le_of_lt hpos)]
        ring
      · have h0 : tele pv.2 (potLevels contrib) 0 = 0 :=
          tele_of_all_gt _ _ _
            (fun x hx =>
              lt_of_le_of_lt (not_lt.mp hpos) (mem_potLevels.mp hx).2)
        rw [h0, max_eq_right (not_lt.mp hpos)]
  refine ⟨hmain, fun hnn => ?_⟩
  rw [hmain]
  apply congrArg List.sum
  apply List.map_congr_left
  intro pv hpv
  exact max_eq_left (hnn pv hpv)

/-- Counterexample to claim C3 as stated: the ledger finalized from a
lone uncalled-bet-return line has value sum `-50`, while no pot is built,
so the pot sizes sum to `0`. -/
theorem royal_C3_counterexample :
    ((build_pots (parse_actions [ActLine.uncalled 50 "C"])).map Pot.size).sum
      ≠ ((parse_actions [ActLine.uncalled 50 "C"]).map Prod.snd).sum := by
  decide

/-- Witness for the amended C3 on an all-non-negative ledger. -/
theorem royal_C3_witness :
    (∀ e ∈ ([("A", (100 : Int)), ("B", 50)] : Ledger), 0 ≤ e.2) ∧
    ((build_pots [("A", 100), ("B", 50)]).map Pot.size).sum
      = (([("A", (100 : Int)), ("B", 50)] : Ledger).map Prod.snd).sum :=
  ⟨by decide, (royal_C3_amended [("A", 100), ("B", 50)]).2 (by decide)⟩

theorem buildPotsAux_eligible (contrib : Ledger) :
    ∀ (L : List Int) (prev : Int) (pot : Pot),
      pot ∈ buildPotsAux contrib L prev →
      ∃ lv ∈ L, pot.eligible
        = (contrib.filter (fun pa => lv ≤ pa.2)).map Prod.fst := by
  intro L
  induction L with
  | nil => intro prev pot h; cases h
  | cons lv rest ih =>
      intro prev pot h
      rcases List.mem_cons.mp h with h1 | h1
      · exact ⟨lv, List.mem_cons_self _ _, by rw [h1]⟩
      · rcases ih lv pot h1 with ⟨lv2, hlv2, he⟩
        exact ⟨lv2, List.mem_cons_of_mem _ hlv2, he⟩

theorem buildPotsAux_pos (contrib : Ledger) :
    ∀ (L : List Int) (prev : Int),
      L.Pairwise (· < ·) → (∀ x ∈ L, prev < x) →
      (∀ x ∈ L, ∃ e ∈ contrib, e.2 = x) →
      ∀ pot ∈ buildPotsAux contrib L prev, 0 < pot.size ∧ pot.eligible ≠ [] := by
  intro L
  induction L with
  | nil => intro prev _ _ _ pot h; cases h
  | cons lv rest ih =>
      intro prev hp hprev hex pot h
      rw [List.pairwise_cons] at hp
      rcases List.mem_cons.mp h with h1 | h1
      · rcases hex lv (List.mem_cons_self _ _) with ⟨e, he, hev⟩
        have hfil : e ∈ contrib.filter (fun pa => lv ≤ pa.2) :=
          List.mem_filter.mpr ⟨he, by simp [hev]⟩
        have hne : (contrib.filter (fun pa => lv ≤ pa.2)).map Prod.fst ≠ [] :=
          List.ne_nil_of_mem (List.mem_map_of_mem Prod.fst hfil)
        have hlen : 0 < (((contrib.filter
            (fun pa => lv ≤ pa.2)).map Prod.fst).length : Int) := by
          exact_mod_cast List.length_pos.mpr hne
        have hsub : 0 < lv - prev :=
          sub_pos.mpr (hprev lv (List.mem_cons_self _ _))
        constructor
        · rw [h1]
          exact mul_pos hsub hlen
        · rw [h1]
          exact hne
      · exact ih lv hp.2 (fun x hx => hp.1 x hx)
          (fun x hx => hex x (List.mem_cons_of_mem _ hx)) pot h1

theorem lset_keys_mem :
    ∀ (l : Ledger) (p q : String) (v : Int),
      q ∈ (lset l p v).map Prod.fst ↔ q ∈ l.map Prod.fst ∨ q = p := by
  intro l
  induction l with
  | nil => intro p q v; simp [lset, eq_comm]
  | cons e rest ih =>
      intro p q v
      by_cases he : e.1 = p
      · subst he
        simp [lset, eq_comm, or_comm, or_assoc, or_left_comm]
      · simp only [lset, if_neg he, List.map_cons, List.mem_cons, ih]
        tauto

theorem lset_keys_nodup (l : Ledger) (p : String) (v : Int)
    (h : (l.map Prod.fst).Nodup) : ((lset l p v).map Prod.fst).Nodup := by
  induction l with
  | nil => simp [lset]
  | cons e rest ih =>
      rw [List.map_cons, List.nodup_cons] at h
      by_cases he : e.1 = p
      · rw [lset, if_pos he, List.map_cons, List.nodup_cons]
        exact ⟨by rw [← he]; exact h.1, h.2⟩
      · rw [lset, if_neg he, List.map_cons, List.nodup_cons]
        refine ⟨?_, ih h.2⟩
        intro hmem
        rcases (lset_keys_mem rest p e.1 v).mp hmem with h2 | h2
        · exact h.1 h2
        · exact he h2

theorem actStep_keys_nodup (st : Ledger × Ledger) (l : ActLine)
    (h1 : (st.1.map Prod.fst).Nodup) (h2 : (st.2.map Prod.fst).Nodup) :
    ((actStep st l).1.map Prod.fst).Nodup ∧
      ((actStep st l).2.map Prod.fst).Nodup := by
  cases l with
  | uncalled amt pl =>
      exact ⟨lset_keys_nodup _ _ _ h1, lset_keys_nodup _ _ _ h2⟩
  | act pl kind amt =>
      by_cases hk : addsAmount kind = true
      · simp only [actStep, hk, if_true]
        exact ⟨lset_keys_nodup _ _ _ h1, lset_keys_nodup _ _ _ h2⟩
      · simp only [actStep, hk]
        simp only [Bool.false_eq_true, if_false]
        exact ⟨h1, h2⟩
  | raiseTo pl total =>
      cases total with
      | none => exact ⟨h1, h2⟩
      | some t =>
          exact ⟨lset_keys_nodup _ _ _ h1, lset_keys_nodup _ _ _ h2⟩
  | other => exact ⟨h1, h2⟩

theorem foldl_actStep_keys_nodup (ls : List ActLine) :
    ∀ st : Ledger × Ledger,
      (st.1.map Prod.fst).Nodup → (st.2.map Prod.fst).Nodup →
      ((ls.foldl actStep st).1.map Prod.fst).Nodup ∧
        ((ls.foldl actStep st).2.map Prod.fst).Nodup := by
  induction ls with
  | nil => intro st h1 h2; exact ⟨h1, h2⟩
  | cons l rest ih =>
      intro st h1 h2
      have := actStep_keys_nodup st l h1 h2
      simpa [List.foldl_cons] using ih (actStep st l) this.1 this.2

theorem parse_actions_keys_nodup (lines : List ActLine) :
    ((parse_actions lines).map Prod.fst).Nodup :=
  (foldl_actStep_keys_nodup lines ([], []) (by simp) (by simp)).1

theorem keys_nodup_val_unique :
    ∀ {l : Ledger}, (l.map Prod.fst).Nodup →
      ∀ {p : String} {a b : Int}, (p, a) ∈ l → (p, b) ∈ l → a = b := by
  intro l
  induction l with
  | nil => intro _ p a b h; cases h
  | cons e rest ih =>
      intro hnd p a b ha hb
      rw [List.map_cons, List.nodup_cons] at hnd
      rcases List.mem_cons.mp ha with h1 | h1 <;>
        rcases List.mem_cons.mp hb with h2 | h2
      · rw [← h2] at h1
        simpa using congrArg Prod.snd h1
      · exfalso
        subst h1
        exact hnd.1 (by simpa using List.mem_map_of_mem Prod.fst h2)
      · exfalso
        subst h2
        exact hnd.1 (by simpa using List.mem_map_of_mem Prod.fst h1)
      · exact ih hnd.2 h1 h2

/-- Claim C10: on every finalized Contribution Ledger (the result of the
action scan, which may contain zero or negative values) every pot tier is
at a positive threshold, every built pot has strictly positive size and a
non-empty eligible set, and a player whose finalized contribution is not
positive is eligible for no pot. -/
theorem royal_C10 (lines : List ActLine) :
    (∀ lv ∈ potLevels (parse_actions lines), 0 < lv) ∧
    (∀ pot ∈ build_pots (parse_actions lines),
        0 < pot.size ∧ pot.eligible ≠ []) ∧
    (∀ p a, (p, a) ∈ parse_actions lines → a ≤ 0 →
        ∀ pot ∈ build_pots (parse_actions lines), ¬ p ∈ pot.eligible) := by
  refine ⟨fun lv hlv => (mem_potLevels.mp hlv).2, ?_, ?_⟩
  · intro pot hpot
    by_cases hc : parse_actions lines = []
    · rw [build_pots, if_pos hc] at hpot
      cases hpot
    · rw [build_pots, if_neg hc] at hpot
      refine buildPotsAux_pos _ _ 0 (potLevels_sorted _) ?_ ?_ pot hpot
      · exact fun x hx => (mem_potLevels.mp hx).2
      · intro x hx
        rcases List.mem_map.mp (mem_potLevels.mp hx).1 with ⟨e, he, hev⟩
        exact ⟨e, he, hev⟩
  · intro p a hpa hle pot hpot hmem
    by_cases hc : parse_actions lines = []
    · rw [build_pots, if_pos hc] at hpot
      cases hpot
    · rw [build_pots, if_neg hc] at hpot
      rcases buildPotsAux_eligible _ _ 0 pot hpot with ⟨lv, hlv, helig⟩
      rw [helig] at hmem
      rcases List.mem_map.mp hmem with ⟨e, hef, hep⟩
      have hec : e ∈ parse_actions lines := (List.mem_filter.mp hef).1
      have hlve : lv ≤ e.2 := by
        have := (List.mem_filter.mp hef).2
        simpa using this
      have hepos : 0 < e.2 :=
        lt_of_lt_of_le (mem_potLevels.mp hlv).2 hlve
      have hee : (p, e.2) ∈ parse_actions lines := by
        have : e = (p, e.2) := by
          rw [← hep]
        rw [← this]
        exact hec
      have : a = e.2 :=
        keys_nodup_val_unique (parse_actions_keys_nodup lines) hpa hee
      omega

/-- Witness for C10 at a concrete input: C's finalized contribution is
`-50`, the single built pot has size 200 with eligible set {A, B}, and C
is not eligible for it. -/
theorem royal_C10_witness :
    (("C", (-50 : Int)) ∈ parse_actions c10Lines) ∧ ((-50 : Int) ≤ 0) ∧
    (Pot.mk 200 ["A", "B"] [] ∈ build_pots (parse_actions c10Lines)) ∧
    (0 < (Pot.mk 200 ["A", "B"] ([] : List String)).size ∧
      (Pot.mk 200 ["A", "B"] ([] : List String)).eligible ≠ []) ∧
    ¬ "C" ∈ (Pot.mk 200 ["A", "B"] ([] : List String)).eligible :=
  ⟨by decide, by decide, by decide,
    (royal_C10 c10Lines).2.1 (Pot.mk 200 ["A", "B"] []) (by decide),
    (royal_C10 c10Lines).2.2 "C" (-50) (by decide) (by decide)
      (Pot.mk 200 ["A", "B"] []) (by decide)⟩

theorem winsert_ne_nil (p : String) (ws : List String) : winsert p ws ≠ [] := by
  rw [winsert]
  by_cases h : p ∈ ws
  · rw [if_pos h]
    exact List.ne_nil_of_mem h
  · rw [if_neg h]
    exact List.cons_ne_nil _ _

theorem takeFold_fate :
    ∀ (elig : List String) (st : Int × List String × Ledger),
      ((elig.foldl takeFromPot st).2.1 = st.2.1 ∧
        (elig.foldl takeFromPot st).1 = st.1) ∨
      (elig.foldl takeFromPot st).2.1 ≠ [] := by
  intro elig
  induction elig with
  | nil => intro st; exact Or.inl ⟨rfl, rfl⟩
  | cons p rest ih =>
      intro st
      rw [List.foldl_cons]
      by_cases h1 : lgetD st.2.2 p ≤ 0 ∨ st.1 ≤ 0
      · have hstep : takeFromPot st p = st := by
          simp only [takeFromPot]
          rw [if_pos h1]
        rw [hstep]
        exact ih st
      · by_cases h2 : 0 < min (lgetD st.2.2 p) st.1
        · have hstep : takeFromPot st p
              = (st.1 - min (lgetD st.2.2 p) st.1,
                 winsert p st.2.1,
                 lset st.2.2 p
                   (lgetD st.2.2 p - min (lgetD st.2.2 p) st.1)) := by
            simp only [takeFromPot]
            rw [if_neg h1, if_pos h2]
          rw [hstep]
          rcases ih (st.1 - min (lgetD st.2.2 p) st.1,
              winsert p st.2.1,
              lset st.2.2 p
                (lgetD st.2.2 p - min (lgetD st.2.2 p) st.1)) with h | h
          · right
            rw [h.1]
            exact winsert_ne_nil p st.2.1
          · exact Or.inr h
        · have hstep : takeFromPot st p = st := by
            simp only [takeFromPot]
            rw [if_neg h1, if_neg h2]
          rw [hstep]
          exact ih st

theorem assignOnePot_winners (pot : Pot) (rem : Ledger)
    (hsize : 0 < pot.size) (helig : pot.eligible ≠ []) :
    (assignOnePot pot rem).1.winners ≠ [] := by
  have hgoal : (assignOnePot pot rem).1.winners
      = (if 0 < (pot.eligible.foldl takeFromPot
              (pot.size, pot.winners, rem)).1 ∧ pot.eligible ≠ [] then
          winsert (pot.eligible.headD "")
            (pot.eligible.foldl takeFromPot (pot.size, pot.winners, rem)).2.1
        else
          (pot.eligible.foldl takeFromPot
            (pot.size, pot.winners, rem)).2.1) := rfl
  rw [hgoal]
  rcases takeFold_fate pot.eligible (pot.size, pot.winners, rem) with h | h
  · rw [if_pos ⟨by rw [h.2]; exact hsize, helig⟩]
    exact winsert_ne_nil _ _
  · by_cases hc : 0 < (pot.eligible.foldl takeFromPot
        (pot.size, pot.winners, rem)).1 ∧ pot.eligible ≠ []
    · rw [if_pos hc]
      exact winsert_ne_nil _ _
    · rw [if_neg hc]
      exact h

theorem assignOnePot_size (pot : Pot) (rem : Ledger) :
    (assignOnePot pot rem).1.size = pot.size := rfl

theorem assignOnePot_eligible (pot : Pot) (rem : Ledger) :
    (assignOnePot pot rem).1.eligible = pot.eligible := rfl

theorem assignSortedPots_mem :
    ∀ (l : List (ℕ × Pot)) (rem : Ledger) (i : ℕ) (pot2 : Pot),
      (i, pot2) ∈ assignSortedPots l rem →
      ∃ pot rem2, pot2 = (assignOnePot pot rem2).1 := by
  intro l
  induction l with
  | nil => intro rem i pot2 h; cases h
  | cons ip rest ih =>
      intro rem i pot2 h
      have hunf : assignSortedPots (ip :: rest) rem
          = (ip.1, (assignOnePot ip.2 rem).1)
            :: assignSortedPots rest (assignOnePot ip.2 rem).2 := rfl
      rw [hunf] at h
      rcases List.mem_cons.mp h with h1 | h1
      · exact ⟨ip.2, rem, by simpa using congrArg Prod.snd h1⟩
      · exact ih _ i pot2 h1

theorem assignSortedPots_keys :
    ∀ (l : List (ℕ × Pot)) (rem : Ledger),
      (assignSortedPots l rem).map Prod.fst = l.map Prod.fst := by
  intro l
  induction l with
  | nil => intro rem; rfl
  | cons ip rest ih =>
      intro rem
      have hunf : assignSortedPots (ip :: rest) rem
          = (ip.1, (assignOnePot ip.2 rem).1)
            :: assignSortedPots rest (assignOnePot ip.2 rem).2 := rfl
      rw [hunf, List.map_cons, List.map_cons, ih]

theorem plookup_mem :
    ∀ (l : List (ℕ × Pot)) (i : ℕ) (pot : Pot),
      plookup i l = some pot → (i, pot) ∈ l := by
  intro l
  induction l with
  | nil => intro i pot h; cases h
  | cons jp rest ih =>
      intro i pot h
      rw [plookup] at h
      by_cases hj : jp.1 = i
      · rw [if_pos hj] at h
        injection h with h
        exact List.mem_cons.mpr (Or.inl (by rw [← hj, ← h]))
      · rw [if_neg hj] at h
        exact List.mem_cons_of_mem _ (ih i pot h)

theorem plookup_isSome :
    ∀ (l : List (ℕ × Pot)) (i : ℕ),
      i ∈ l.map Prod.fst → ∃ pot, plookup i l = some pot := by
  intro l
  induction l with
  | nil => intro i h; cases h
  | cons jp rest ih =>
      intro i h
      by_cases hj : jp.1 = i
      · exact ⟨jp.2, by rw [plookup, if_pos hj]⟩
      · rw [List.map_cons, List.mem_cons] at h
        rcases h with h | h
        · exact absurd h.symm hj
        · rcases ih i h with ⟨pot, hp⟩
          exact ⟨pot, by rw [plookup, if_neg hj]; exact hp⟩

/-- Claim C7: after the Winner Assigner runs, every pot with positive
size and at least one eligible player has a non-empty winners set. -/
theorem royal_C7 (pots : List Pot) (collects : Ledger) :
    ∀ pot ∈ assign_winners pots collects,
      0 < pot.size → pot.eligible ≠ [] → pot.winners ≠ [] := by
  intro pot hpot hsize helig
  simp only [assign_winners] at hpot
  rcases List.mem_map.mp hpot with ⟨ip, hip, hpe⟩
  have hkey : ip.1 ∈ (assignSortedPots
      (@List.insertionSort (ℕ × Pot)
        (fun a b => a.2.eligible.length ≤ b.2.eligible.length)
        (fun a b => Nat.decLe a.2.eligible.length b.2.eligible.length)
        (enumPots 0 pots)) collects).map Prod.fst := by
    rw [assignSortedPots_keys]
    have hperm := @List.perm_insertionSort (ℕ × Pot)
      (fun a b => a.2.eligible.length ≤ b.2.eligible.length)
      (fun a b => Nat.decLe a.2.eligible.length b.2.eligible.length)
      (enumPots 0 pots)
    exact (hperm.map Prod.fst).mem_iff.mpr (List.mem_map_of_mem Prod.fst hip)
  rcases plookup_isSome _ _ hkey with ⟨pot2, hlk⟩
  have hpp : pot = pot2 := by
    rw [← hpe, hlk]
    rfl
  rcases assignSortedPots_mem _ _ _ _ (plookup_mem _ _ _ hlk)
    with ⟨orig, rem2, horig⟩
  rw [hpp, horig] at hsize helig ⊢
  rw [assignOnePot_size] at hsize
  rw [assignOnePot_eligible] at helig
  exact assignOnePot_winners orig rem2 hsize helig

/-- Witness for C7 at a concrete input: two equal contributions of 100
and a single collection of 200 yield one pot of size 200 whose winners
set is non-empty. -/
theorem royal_C7_witness :
    c7WitnessPot ∈ assign_winners (build_pots [("A", 100), ("B", 100)])
        [("A", 200)] ∧
    0 < c7WitnessPot.size ∧ c7WitnessPot.eligible ≠ [] ∧
    c7WitnessPot.winners ≠ [] :=
  ⟨by decide, by decide, by decide,
    royal_C7 (build_pots [("A", 100), ("B", 100)]) [("A", 200)]
      c7WitnessPot (by decide) (by decide) (by decide)⟩

/-- Claim C1 is the intended behaviour, but the source code deviates from
its own knockout-counting helper: on this hand, S (all-in for 50) and P
(100) are both eliminated while the hero collects the whole 250 from both
pots.  `_ko_in_hand` — the smallest-pot rule of the claim — counts 2
knockouts, yet the emission loop of `parse_file` produces a fact for
every (eligible pot, hero-won) pair, emitting two facts for P and three
in total instead of exactly one per eliminated player. -/
theorem royal_C1_code_bug :
    eliminatedIn koHand1 (some koHand2) = ["S", "P"] ∧
    ko_in_hand koHand1 (eliminatedIn koHand1 (some koHand2)) "Hero" = 2 ∧
    ((knockoutFacts [koHand1, koHand2] "Hero").filter
        (fun f => f.player = "P")).length = 2 ∧
    (knockoutFacts [koHand1, koHand2] "Hero").length = 3 := by
  decide

/-! ## Bounty decomposer lemmas -/

theorem extractKO_spec (buy_in : ℚ) (m : Int) (c : ℚ) (mult : ℕ)
    (hb : 0 < buy_in) (hm : (mult : ℚ) ≠ 0) :
    extractKO buy_in m c mult
      = (min ⌊c / (buy_in * (mult : ℚ))⌋ m,
         c - ((min ⌊c / (buy_in * (mult : ℚ))⌋ m : Int) : ℚ)
           * (buy_in * (mult : ℚ))) := by
  simp only [extractKO]
  rw [if_neg (not_le.mpr hb), if_neg (mul_ne_zero (ne_of_gt hb) hm)]

theorem extractKO_qty_le (buy_in : ℚ) (m : Int) (c : ℚ) (mult : ℕ)
    (hm : 0 ≤ m) : (extractKO buy_in m c mult).1 ≤ m := by
  simp only [extractKO]
  split_ifs with h1 h2 <;> dsimp only
  · exact hm
  · exact hm
  · exact min_le_right _ _

theorem extractKO_qty_nonneg (buy_in : ℚ) (m : Int) (c : ℚ) (mult : ℕ)
    (hc : 0 ≤ c) (hm : 0 ≤ m) : 0 ≤ (extractKO buy_in m c mult).1 := by
  simp only [extractKO]
  split_ifs with h1 h2 <;> dsimp only
  · exact le_refl 0
  · exact le_refl 0
  · have hb : 0 < buy_in := not_le.mp h1
    have hp : 0 < buy_in * (mult : ℚ) :=
      lt_of_le_of_ne (mul_nonneg hb.le (Nat.cast_nonneg mult)) (Ne.symm h2)
    refine le_min ?_ hm
    exact Int.floor_nonneg.mpr (div_nonneg hc hp.le)

theorem extractKO_rem_nonneg (buy_in : ℚ) (m : Int) (c : ℚ) (mult : ℕ)
    (hc : 0 ≤ c) : 0 ≤ (extractKO buy_in m c mult).2 := by
  simp only [extractKO]
  split_ifs with h1 h2 <;> dsimp only
  · exact hc
  · exact hc
  · have hb : 0 < buy_in := not_le.mp h1
    have hp : 0 < buy_in * (mult : ℚ) :=
      lt_of_le_of_ne (mul_nonneg hb.le (Nat.cast_nonneg mult)) (Ne.symm h2)
    have hq : ((min ⌊c / (buy_in * (mult : ℚ))⌋ m : Int) : ℚ)
        ≤ c / (buy_in * (mult : ℚ)) := by
      calc ((min ⌊c / (buy_in * (mult : ℚ))⌋ m : Int) : ℚ)
          ≤ ((⌊c / (buy_in * (mult : ℚ))⌋ : Int) : ℚ) := by
            exact_mod_cast min_le_left _ _
        _ ≤ c / (buy_in * (mult : ℚ)) := Int.floor_le _
    have hle := mul_le_mul_of_nonneg_right hq hp.le
    rw [div_mul_cancel₀ _ (ne_of_gt hp)] at hle
    exact sub_nonneg.mpr hle

theorem floor_794_10000 : ⌊(794 : ℚ) / (10 * ((10000 : ℕ) : ℚ))⌋ = 0 := by
  rw [Int.floor_eq_iff]
  constructor <;> norm_num

theorem floor_794_1000 : ⌊(794 : ℚ) / (10 * ((1000 : ℕ) : ℚ))⌋ = 0 := by
  rw [Int.floor_eq_iff]
  constructor <;> norm_num

theorem floor_794_100 : ⌊(794 : ℚ) / (10 * ((100 : ℕ) : ℚ))⌋ = 0 := by
  rw [Int.floor_eq_iff]
  constructor <;> norm_num

theorem floor_794_10 : ⌊(794 : ℚ) / (10 * ((10 : ℕ) : ℚ))⌋ = 7 := by
  rw [Int.floor_eq_iff]
  constructor <;> norm_num

theorem floor_94_2 : ⌊(94 : ℚ) / (10 * ((2 : ℕ) : ℚ))⌋ = 4 := by
  rw [Int.floor_eq_iff]
  constructor <;> norm_num

theorem extract_794_10000 : extractKO 10 8 794 10000 = (0, 794) := by
  rw [extractKO_spec 10 8 794 10000 (by norm_num) (by norm_num),
    floor_794_10000]
  norm_num [Prod.ext_iff]

theorem extract_794_1000 : extractKO 10 8 794 1000 = (0, 794) := by
  rw [extractKO_spec 10 8 794 1000 (by norm_num) (by norm_num), floor_794_1000]
  norm_num [Prod.ext_iff]

theorem extract_794_100 : extractKO 10 8 794 100 = (0, 794) := by
  rw [extractKO_spec 10 8 794 100 (by norm_num) (by norm_num), floor_794_100]
  norm_num [Prod.ext_iff]

theorem extract_794_10 : extractKO 10 8 794 10 = (7, 94) := by
  rw [extractKO_spec 10 8 794 10 (by norm_num) (by norm_num), floor_794_10]
  rw [show min (7 : Int) 8 = 7 from by decide]
  norm_num [Prod.ext_iff]

theorem extract_94_2 : extractKO 10 8 94 2 = (4, 14) := by
  rw [extractKO_spec 10 8 94 2 (by norm_num) (by norm_num), floor_94_2]
  rw [show min (4 : Int) 8 = 4 from by decide]
  norm_num [Prod.ext_iff]

theorem calc_794_eval : calculate_large_knockouts 794 10 9 = (4, 7, 0, 0, 0) := by
  have hm : (max 0 ((9 : Int) - 1)) = 8 := by decide
  simp only [calculate_large_knockouts, hm, extract_794_10000, extract_794_1000,
    extract_794_100, extract_794_10, extract_94_2]

theorem base_834_eval : max ((834 : ℚ) - compute_base_payout 1 10) 0 = 794 := by
  norm_num [compute_base_payout]

/-- Counterexample to claim C2 as stated: on the scenario's input the
greedy extraction does not produce the claimed bucket counts
`x100 = 7, x10 = 8, x2 = 7` (the x100 tier price is `10 × 100 = 1000`,
which 794 cannot afford even once). -/
theorem royal_C2_counterexample :
    calculate_large_knockouts (max ((834 : ℚ) - compute_base_payout 1 10) 0)
        10 9 ≠ (7, 8, 7, 0, 0) := by
  rw [base_834_eval, calc_794_eval]
  decide

/-- Amended claim C2: buy-in 10, finish place 1, player count 9, total
prize 834.0 gives base payout 40.0 and bounty 794.0; the greedy
extraction yields x10000 = 0, x1000 = 0, x100 = 0 (each leaves 794),
x10 = 7 (700 consumed, remainder 94) and x2 = 4 (80 consumed, final
remainder 14.0). -/
theorem royal_C2_amended :
    compute_base_payout 1 10 = 40 ∧
    max ((834 : ℚ) - compute_base_payout 1 10) 0 = 794 ∧
    extractKO 10 8 794 10000 = (0, 794) ∧
    extractKO 10 8 794 1000 = (0, 794) ∧
    extractKO 10 8 794 100 = (0, 794) ∧
    extractKO 10 8 794 10 = (7, 94) ∧
    extractKO 10 8 94 2 = (4, 14) ∧
    calculate_large_knockouts 794 10 9 = (4, 7, 0, 0, 0) :=
  ⟨by norm_num [compute_base_payout], base_834_eval, extract_794_10000,
    extract_794_1000, extract_794_100, extract_794_10, extract_94_2,
    calc_794_eval⟩

theorem calculate_zero_of_nonpos (bounty buy_in : ℚ) (players : Int)
    (hb : buy_in ≤ 0) :
    calculate_large_knockouts bounty buy_in players = (0, 0, 0, 0, 0) := by
  simp only [calculate_large_knockouts, extractKO, if_pos hb]

/-- Counterexample to claim C4 as stated: at player count 0 the claim's
clamp bound is `players - 1 = -1`, so the claimed x10000 bucket count at
bounty 5, buy-in 1 would be `min 0 (-1) = -1`, while the code clamps at
`max(0, players - 1) = 0` and returns 0. -/
theorem royal_C4_counterexample :
    (calculate_large_knockouts 5 1 0).2.2.2.2 = 0 ∧
    claimedBucketCount 5 1 10000 0 = -1 ∧
    (calculate_large_knockouts 5 1 0).2.2.2.2
      ≠ claimedBucketCount 5 1 10000 0 := by
  have hfl : ⌊(5 : ℚ) / (1 * ((10000 : ℕ) : ℚ))⌋ = 0 := by
    rw [Int.floor_eq_iff]
    constructor <;> norm_num
  have hcode : (calculate_large_knockouts 5 1 0).2.2.2.2 = 0 := by
    show (extractKO 1 (max 0 ((0 : Int) - 1)) 5 10000).1 = 0
    rw [show (max 0 ((0 : Int) - 1)) = 0 from by decide,
      extractKO_spec 1 0 5 10000 (by norm_num) (by norm_num)]
    dsimp only
    rw [hfl]
    decide
  have hclaim : claimedBucketCount 5 1 10000 0 = -1 := by
    simp only [claimedBucketCount]
    rw [hfl]
    decide
  refine ⟨hcode, hclaim, ?_⟩
  rw [hcode, hclaim]
  decide

/-- Amended claim C4: the tiers are processed from largest to smallest
with, at each tier, bucket count `min ⌊remaining / (buy_in * mult)⌋ m`
where `m = max 0 (players - 1)` (the code additionally clamps the cap
below at 0, which the claim misses for player counts < 1); for
non-negative input bounty no extraction step leaves a negative remaining
bounty, every final bucket count lies in `[0, max 0 (players - 1)]`, and
a non-positive buy-in yields all-zero buckets. -/
theorem royal_C4_amended (bounty buy_in : ℚ) (players : Int)
    (hbounty : 0 ≤ bounty) :
    (0 < buy_in → ∀ (c : ℚ) (mult : ℕ), (mult : ℚ) ≠ 0 →
      (extractKO buy_in (max 0 (players - 1)) c mult).1
        = min ⌊c / (buy_in * (mult : ℚ))⌋ (max 0 (players - 1))) ∧
    (∀ (c : ℚ) (mult : ℕ), 0 ≤ c →
      0 ≤ (extractKO buy_in (max 0 (players - 1)) c mult).2) ∧
    (0 ≤ (calculate_large_knockouts bounty buy_in players).1 ∧
      (calculate_large_knockouts bounty buy_in players).1
        ≤ max 0 (players - 1)) ∧
    (0 ≤ (calculate_large_knockouts bounty buy_in players).2.1 ∧
      (calculate_large_knockouts bounty buy_in players).2.1
        ≤ max 0 (players - 1)) ∧
    (0 ≤ (calculate_large_knockouts bounty buy_in players).2.2.1 ∧
      (calculate_large_knockouts bounty buy_in players).2.2.1
        ≤ max 0 (players - 1)) ∧
    (0 ≤ (calculate_large_knockouts bounty buy_in players).2.2.2.1 ∧
      (calculate_large_knockouts bounty buy_in players).2.2.2.1
        ≤ max 0 (players - 1)) ∧
    (0 ≤ (calculate_large_knockouts bounty buy_in players).2.2.2.2 ∧
      (calculate_large_knockouts bounty buy_in players).2.2.2.2
        ≤ max 0 (players - 1)) ∧
    (buy_in ≤ 0 →
      calculate_large_knockouts bounty buy_in players = (0, 0, 0, 0, 0)) := by
  have hm0 : (0 : Int) ≤ max 0 (players - 1) := le_max_left _ _
  set m := max 0 (players - 1) with hm
  set r0 := extractKO buy_in m bounty 10000 with hr0
  set r1 := extractKO buy_in m r0.2 1000 with hr1
  set r2 := extractKO buy_in m r1.2 100 with hr2
  set r3 := extractKO buy_in m r2.2 10 with hr3
  set r4 := extractKO buy_in m r3.2 2 with hr4
  have hcalc : calculate_large_knockouts bounty buy_in players
      = (r4.1, r3.1, r2.1, r1.1, r0.1) := rfl
  have h0 : 0 ≤ r0.2 := by
    rw [hr0]; exact extractKO_rem_nonneg _ _ _ _ hbounty
  have h1 : 0 ≤ r1.2 := by
    rw [hr1]; exact extractKO_rem_nonneg _ _ _ _ h0
  have h2 : 0 ≤ r2.2 := by
    rw [hr2]; exact extractKO_rem_nonneg _ _ _ _ h1
  have h3 : 0 ≤ r3.2 := by
    rw [hr3]; exact extractKO_rem_nonneg _ _ _ _ h2
  rw [hcalc]
  refine ⟨?_, ?_, ⟨?_, ?_⟩, ⟨?_, ?_⟩, ⟨?_, ?_⟩, ⟨?_, ?_⟩, ⟨?_, ?_⟩, ?_⟩
  · intro hb c mult hmne
    rw [extractKO_spec _ _ _ _ hb hmne]
  · intro c mult hc
    exact extractKO_rem_nonneg _ _ _ _ hc
  · rw [hr4]; exact extractKO_qty_nonneg _ _ _ _ h3 hm0
  · rw [hr4]; exact extractKO_qty_le _ _ _ _ hm0
  · rw [hr3]; exact extractKO_qty_nonneg _ _ _ _ h2 hm0
  · rw [hr3]; exact extractKO_qty_le _ _ _ _ hm0
  · rw [hr2]; exact extractKO_qty_nonneg _ _ _ _ h1 hm0
  · rw [hr2]; exact extractKO_qty_le _ _ _ _ hm0
  · rw [hr1]; exact extractKO_qty_nonneg _ _ _ _ h0 hm0
  · rw [hr1]; exact extractKO_qty_le _ _ _ _ hm0
  · rw [hr0]; exact extractKO_qty_nonneg _ _ _ _ hbounty hm0
  · rw [hr0]; exact extractKO_qty_le _ _ _ _ hm0
  · intro hb
    rw [← hcalc]
    exact calculate_zero_of_nonpos bounty buy_in players hb

/-- Witness for the amended C4 at bounty 794, buy-in 10, 9 players. -/
theorem royal_C4_witness :
    (0 ≤ (794 : ℚ)) ∧
    (0 ≤ (calculate_large_knockouts 794 10 9).1 ∧
      (calculate_large_knockouts 794 10 9).1 ≤ max 0 ((9 : Int) - 1)) :=
  ⟨by norm_num, (royal_C4_amended 794 10 9 (by norm_num)).2.2.1⟩

/-- Counterexample to claim C8 as stated: a document with no hero
finish-place block but with a generic place/prize block does not fail —
the engine falls back to the first generic block and returns a summary
fact. -/
theorem royal_C8_counterexample :
    (ts_parse_file 1 1 9 none (some (5, 100))).isOk = true := rfl

/-- Amended claim C8: a missing hero finish-place block alone is not
fatal — the engine falls back to the first generic finish-place block.
The document-level "could not determine place and prize" error is raised
when that fallback also finds nothing, and a document whose fallback
block carries a finish place of at least 1 parses successfully (a
fallback block with finish place 0 can still fail later, in the
dataclass validation). -/
theorem royal_C8_amended (tid : Int) (buy_in : ℚ) (players_parsed : ℕ)
    (finish_place : ℕ) (prize : ℚ) (hfp : 1 ≤ finish_place) :
    ts_parse_file tid buy_in players_parsed none none
      = Except.error "could not determine place and prize for hero" ∧
    (ts_parse_file tid buy_in players_parsed none
        (some (finish_place, prize))).isOk = true := by
  refine ⟨rfl, ?_⟩
  have hn1 : ¬ finish_place < 1 := by omega
  by_cases hz : players_parsed = 0
  · subst hz
    simp [ts_parse_file, mkTournamentSummary, Except.map, Except.isOk, Except.toBool,
      hfp, hn1]
  · by_cases hlt : players_parsed < finish_place
    · simp [ts_parse_file, mkTournamentSummary, Except.map, Except.isOk, Except.toBool,
        hfp, hn1, hz, hlt]
    · have hge : finish_place ≤ players_parsed := le_of_not_lt hlt
      have hp1 : ¬ players_parsed < 1 := by omega
      simp [ts_parse_file, mkTournamentSummary, Except.map, Except.isOk, Except.toBool,
        hfp, hn1, hz, hlt, hge, hp1]

/-- Witness for the amended C8: a document with no hero block, a generic
5th-place block and 9 parsed players parses successfully, while the
no-block document errors. -/
theorem royal_C8_witness :
    (1 ≤ 5) ∧
    (ts_parse_file 1 1 9 none none
        = Except.error "could not determine place and prize for hero" ∧
      (ts_parse_file 1 1 9 none (some (5, 100))).isOk = true) :=
  ⟨by decide, royal_C8_amended 1 1 9 5 100 (by decide)⟩

/-- Counterexample to claim C9 as stated: with parsed player count 0 and
parsed finish place 0 (a "0th place" block), the engine corrects the
player count but then fails fatally in the dataclass validation instead
of proceeding with only a recoverable warning. -/
theorem royal_C9_counterexample :
    ts_parse_file 1 1 0 (some (0, 50)) none
      = Except.error "finish_place must be 1 or more" := rfl

/-- Amended claim C9: for a parsed finish place of at least 1, a parsed
player count of zero or smaller than the finish place is corrected
upward to the finish place, a recoverable warning is recorded, and the
decomposition proceeds with the corrected player count. -/
theorem royal_C9_amended (tid : Int) (buy_in : ℚ)
    (players_parsed finish_place : ℕ) (prize : ℚ)
    (generic_block : Option (ℕ × ℚ))
    (hfp : 1 ≤ finish_place)
    (hpp : players_parsed = 0 ∨ players_parsed < finish_place) :
    ∃ s ws,
      ts_parse_file tid buy_in players_parsed
          (some (finish_place, prize)) generic_block = Except.ok (s, ws) ∧
      s.players = finish_place ∧ ws ≠ [] ∧
      s.bounty_total
        = max (prize - compute_base_payout finish_place buy_in) 0 ∧
      (s.knockouts_x2, s.knockouts_x10, s.knockouts_x100, s.knockouts_x1000,
          s.knockouts_x10000)
        = calculate_large_knockouts
            (max (prize - compute_base_payout finish_place buy_in) 0) buy_in
            (finish_place : Int) := by
  have hn1 : ¬ finish_place < 1 := by omega
  by_cases hz : players_parsed = 0
  · subst hz
    have hstep : ts_parse_file tid buy_in 0
        (some (finish_place, prize)) generic_block
        = Except.ok
          (⟨tid, buy_in, finish_place, finish_place, prize,
            max (prize - compute_base_payout finish_place buy_in) 0,
            (calculate_large_knockouts
              (max (prize - compute_base_payout finish_place buy_in) 0)
              buy_in (finish_place : Int)).1,
            (calculate_large_knockouts
              (max (prize - compute_base_payout finish_place buy_in) 0)
              buy_in (finish_place : Int)).2.1,
            (calculate_large_knockouts
              (max (prize - compute_base_payout finish_place buy_in) 0)
              buy_in (finish_place : Int)).2.2.1,
            (calculate_large_knockouts
              (max (prize - compute_base_payout finish_place buy_in) 0)
              buy_in (finish_place : Int)).2.2.2.1,
            (calculate_large_knockouts
              (max (prize - compute_base_payout finish_place buy_in) 0)
              buy_in (finish_place : Int)).2.2.2.2⟩,
           ["player count not found, set to finish_place"]) := by
      simp [ts_parse_file, mkTournamentSummary, Except.map, hfp, hn1]
    exact ⟨_, _, hstep, rfl, by simp, rfl, rfl⟩
  · have hlt : players_parsed < finish_place := by
      rcases hpp with h | h
      · exact absurd h hz
      · exact h
    have hstep : ts_parse_file tid buy_in players_parsed
        (some (finish_place, prize)) generic_block
        = Except.ok
          (⟨tid, buy_in, finish_place, finish_place, prize,
            max (prize - compute_base_payout finish_place buy_in) 0,
            (calculate_large_knockouts
              (max (prize - compute_base_payout finish_place buy_in) 0)
              buy_in (finish_place : Int)).1,
            (calculate_large_knockouts
              (max (prize - compute_base_payout finish_place buy_in) 0)
              buy_in (finish_place : Int)).2.1,
            (calculate_large_knockouts
              (max (prize - compute_base_payout finish_place buy_in) 0)
              buy_in (finish_place : Int)).2.2.1,
            (calculate_large_knockouts
              (max (prize - compute_base_payout finish_place buy_in) 0)
              buy_in (finish_place : Int)).2.2.2.1,
            (calculate_large_knockouts
              (max (prize - compute_base_payout finish_place buy_in) 0)
              buy_in (finish_place : Int)).2.2.2.2⟩,
           ["player count smaller than finish place, corrected"]) := by
      simp [ts_parse_file, mkTournamentSummary, Except.map, hfp, hn1, hz, hlt]
    exact ⟨_, _, hstep, rfl, by simp, rfl, rfl⟩

/-- Witness for the amended C9: player count 0, finish place 5. -/
theorem royal_C9_witness :
    (1 ≤ 5) ∧ ((0 : ℕ) = 0 ∨ (0 : ℕ) < 5) ∧
    (∃ s ws,
      ts_parse_file 1 10 0 (some (5, 100)) none = Except.ok (s, ws) ∧
      s.players = 5 ∧ ws ≠ [] ∧
      s.bounty_total = max ((100 : ℚ) - compute_base_payout 5 10) 0 ∧
      (s.knockouts_x2, s.knockouts_x10, s.knockouts_x100, s.knockouts_x1000,
          s.knockouts_x10000)
        = calculate_large_knockouts
            (max ((100 : ℚ) - compute_base_payout 5 10) 0) 10
            ((5 : ℕ) : Int)) :=
  ⟨by norm_num, Or.inl rfl,
    royal_C9_amended 1 10 0 5 100 none (by norm_num) (Or.inl rfl)⟩

